import Mathlib

/-!
Verification of the experiment-tracking integration layer
(`src/transformers/integrations.py`): log-key rewriting, the reporting
integration registry, the callback `on_log` adapters, DeepSpeed
configuration processing, the Ray Tune hyperparameter-search driver's
validation, the process-wide ZeRO-3 flag, and the deep-copy discipline of
`deepspeed_parse_config`.

Python strings are modelled as `List Char`, Python dictionaries as
insertion-ordered association lists (`List (Str × α)`) with the usual
dict operations (`dictContains`, `dictFind?`, `dictInsert`); raising an
exception is modelled with `Except String`/`Except Str`.
-/

set_option autoImplicit false

namespace Integrations

/-- Python strings, modelled as lists of characters. -/
abbrev Str := List Char

/-- Turn a Lean string literal into the `List Char` model. -/
def str (s : String) : Str := s.data

universe u

variable {α : Type u}

/-- Python `k in d` on a dict modelled as an association list. -/
def dictContains (d : List (Str × α)) (k : Str) : Bool :=
  d.any (fun kv => kv.1 == k)

/-- Python `d.get(k)` / `d[k]` lookup (first matching key). -/
def dictFind? (d : List (Str × α)) (k : Str) : Option α :=
  (d.find? (fun kv => kv.1 == k)).map Prod.snd

/-- Python `d[k] = v`: replace the value in place if the key is present
(keeping its position, as CPython dicts do), otherwise append the new
entry at the end. -/
def dictInsert (d : List (Str × α)) (k : Str) (v : α) : List (Str × α) :=
  if dictContains d k then d.map (fun kv => if kv.1 == k then (k, v) else kv)
  else d ++ [(k, v)]

/-- `eval_prefix = "eval_"` from `rewrite_logs`. -/
def eval_prefix : Str := str "eval_"

/-- `rewrite_logs(d)` from `integrations.py`: build a fresh dict whose
keys starting with `eval_` are renamed to `eval/<rest>` and all other
keys to `train/<key>`, values unchanged. -/
def rewrite_logs (d : List (Str × α)) : List (Str × α) :=
  d.foldl
    (fun new_d kv =>
      if eval_prefix.isPrefixOf kv.1 then
        dictInsert new_d (str "eval/" ++ kv.1.drop eval_prefix.length) kv.2
      else
        dictInsert new_d (str "train/" ++ kv.1) kv.2)
    []

/-- The key transformation performed by `rewrite_logs`, factored out for
specification purposes. -/
def logKey (k : Str) : Str :=
  if eval_prefix.isPrefixOf k then str "eval/" ++ k.drop eval_prefix.length
  else str "train/" ++ k

theorem logKey_injective : Function.Injective logKey := by
  intro a b h
  unfold logKey at h
  by_cases ha : eval_prefix.isPrefixOf a <;> by_cases hb : eval_prefix.isPrefixOf b <;>
    simp [ha, hb] at h
  · have ha' : eval_prefix ++ a.drop eval_prefix.length = a :=
      List.prefix_iff_eq_append.mp (List.isPrefixOf_iff_prefix.mp ha)
    have hb' : eval_prefix ++ b.drop eval_prefix.length = b :=
      List.prefix_iff_eq_append.mp (List.isPrefixOf_iff_prefix.mp hb)
    rw [← ha', ← hb', h]
  · exact absurd (congrArg (fun l => l.head?) h) (by simp [str])
  · exact absurd (congrArg (fun l => l.head?) h) (by simp [str])
  · exact h

theorem dictContains_nil (k : Str) : dictContains ([] : List (Str × α)) k = false := rfl

theorem dictInsert_of_not_contains (d : List (Str × α)) (k : Str) (v : α)
    (h : dictContains d k = false) : dictInsert d k v = d ++ [(k, v)] := by
  simp [dictInsert, h]

theorem dictContains_append (d₁ d₂ : List (Str × α)) (k : Str) :
    dictContains (d₁ ++ d₂) k = (dictContains d₁ k || dictContains d₂ k) := by
  simp [dictContains, List.any_append]

theorem rewrite_logs_go (d acc : List (Str × α))
    (hfresh : ∀ kv ∈ d, dictContains acc (logKey kv.1) = false)
    (hnd : (d.map (fun kv => logKey kv.1)).Nodup) :
    d.foldl
      (fun new_d kv =>
        if eval_prefix.isPrefixOf kv.1 then
          dictInsert new_d (str "eval/" ++ kv.1.drop eval_prefix.length) kv.2
        else
          dictInsert new_d (str "train/" ++ kv.1) kv.2)
      acc = acc ++ d.map (fun kv => (logKey kv.1, kv.2)) := by
  induction d generalizing acc with
  | nil => simp
  | cons kv rest ih =>
    have hnd' : (logKey kv.1 :: rest.map (fun kv => logKey kv.1)).Nodup := by
      rw [List.map_cons] at hnd; exact hnd
    have hhead : logKey kv.1 ∉ rest.map (fun kv => logKey kv.1) :=
      (List.nodup_cons.mp hnd').1
    have htail : (rest.map (fun kv => logKey kv.1)).Nodup :=
      (List.nodup_cons.mp hnd').2
    have hstep :
        (if eval_prefix.isPrefixOf kv.1 then
          dictInsert acc (str "eval/" ++ kv.1.drop eval_prefix.length) kv.2
        else dictInsert acc (str "train/" ++ kv.1) kv.2)
          = acc ++ [(logKey kv.1, kv.2)] := by
      have h0 := hfresh kv (by simp)
      by_cases hp : eval_prefix.isPrefixOf kv.1 <;>
        simp only [logKey, hp, if_true, if_false] at h0 ⊢ <;>
        exact dictInsert_of_not_contains _ _ _ h0
    simp only [List.foldl_cons, hstep]
    rw [ih (acc ++ [(logKey kv.1, kv.2)])]
    · simp
    · intro kv' hkv'
      rw [dictContains_append]
      have h1 := hfresh kv' (List.mem_cons_of_mem kv hkv')
      have h2 : logKey kv.1 ≠ logKey kv'.1 := by
        intro heq
        exact hhead (heq ▸ List.mem_map.mpr ⟨kv', hkv', rfl⟩)
      have h3 : dictContains [(logKey kv.1, kv.2)] (logKey kv'.1) = false := by
        simp only [dictContains, List.any_cons, List.any_nil, Bool.or_false]
        exact beq_eq_false_iff_ne.mpr h2
      rw [h1, h3]
      rfl
    · exact htail

/-- **C1.** `rewrite_logs` maps every key `k` starting with `"eval_"` to
`"eval/" ++ (k minus the prefix)`, every other key to `"train/" ++ k`,
and leaves every value unchanged: on any dict (distinct keys), the result
is exactly the entrywise key rewrite. -/
theorem rewrite_logs_spec (d : List (Str × α)) (h : (d.map Prod.fst).Nodup) :
    rewrite_logs d =
      d.map (fun kv =>
        (if eval_prefix.isPrefixOf kv.1 then str "eval/" ++ kv.1.drop eval_prefix.length
         else str "train/" ++ kv.1, kv.2)) := by
  have hmap : (d.map (fun kv => logKey kv.1)).Nodup := by
    have : d.map (fun kv => logKey kv.1) = (d.map Prod.fst).map logKey := by
      simp [List.map_map, Function.comp]
    rw [this]
    exact h.map logKey_injective
  have := rewrite_logs_go d [] (by intro kv _; rfl) hmap
  simpa [rewrite_logs, logKey] using this

/-- Witness for **C1** at a concrete dict. -/
theorem rewrite_logs_spec_witness :
    (([(str "eval_loss", (1 : Int)), (str "loss", 2)].map Prod.fst).Nodup) ∧
      rewrite_logs [(str "eval_loss", (1 : Int)), (str "loss", 2)] =
        [(str "eval_loss", (1 : Int)), (str "loss", 2)].map (fun kv =>
          (if eval_prefix.isPrefixOf kv.1 then str "eval/" ++ kv.1.drop eval_prefix.length
           else str "train/" ++ kv.1, kv.2)) :=
  ⟨by decide, rewrite_logs_spec [(str "eval_loss", (1 : Int)), (str "loss", 2)] (by decide)⟩

/-! ## Reporting-integration registry -/

/-- The five callback classes appearing in `INTEGRATION_TO_CALLBACK`.
Python passes the classes themselves (not instances) around, so a plain
enumeration of the classes is a faithful model. -/
inductive CallbackClass where
  | AzureMLCallback
  | CometCallback
  | MLflowCallback
  | TensorBoardCallback
  | WandbCallback
deriving DecidableEq

/-- `INTEGRATION_TO_CALLBACK` from `integrations.py`. -/
def INTEGRATION_TO_CALLBACK : List (Str × CallbackClass) :=
  [(str "azure_ml", .AzureMLCallback),
   (str "comet_ml", .CometCallback),
   (str "mlflow", .MLflowCallback),
   (str "tensorboard", .TensorBoardCallback),
   (str "wandb", .WandbCallback)]

/-- The constant part of the unsupported-integration error message:
`" is not supported, only {', '.join(INTEGRATION_TO_CALLBACK.keys())} are supported."`. -/
def msgTail : Str :=
  str " is not supported, only " ++
    List.intercalate (str ", ") (INTEGRATION_TO_CALLBACK.map Prod.fst) ++
    str " are supported."

/-- The full message of the `ValueError` raised for an unsupported name. -/
def unsupportedMsg (integration : Str) : Str :=
  integration ++ msgTail

/-- `get_reporting_integration_callbacks(report_to)` from
`integrations.py`: raise `ValueError` at the first name missing from
`INTEGRATION_TO_CALLBACK`, otherwise return the list of looked-up
callback classes in input order. -/
def get_reporting_integration_callbacks (report_to : List Str) :
    Except Str (List CallbackClass) :=
  match report_to.find? (fun integration => !dictContains INTEGRATION_TO_CALLBACK integration) with
  | some integration => .error (unsupportedMsg integration)
  | none =>
      report_to.mapM (fun integration =>
        match dictFind? INTEGRATION_TO_CALLBACK integration with
        | some c => Except.ok c
        | none => Except.error (str "KeyError"))

theorem dictFind?_some_mem {β : Type u} {d : List (Str × β)} {k : Str} {v : β}
    (h : dictFind? d k = some v) : (k, v) ∈ d := by
  unfold dictFind? at h
  cases hf : d.find? (fun kv => kv.1 == k) with
  | none => rw [hf] at h; simp at h
  | some kv =>
    rw [hf] at h
    have hm := List.mem_of_find?_eq_some hf
    have hk : kv.1 = k := by simpa using List.find?_some hf
    obtain ⟨k', v'⟩ := kv
    have hk' : k' = k := hk
    have hv' : v' = v := by simpa using h
    rw [← hk', ← hv']
    exact hm

theorem dictContains_exists_find {β : Type u} {d : List (Str × β)} {k : Str}
    (h : dictContains d k = true) : ∃ v, dictFind? d k = some v := by
  have h1 : (d.find? (fun kv => kv.1 == k)).isSome :=
    List.find?_isSome.mpr (List.any_eq_true.mp h)
  obtain ⟨kv, hkv⟩ := Option.isSome_iff_exists.mp h1
  exact ⟨kv.2, by unfold dictFind?; rw [hkv]; rfl⟩

theorem get_callbacks_mapM (report_to : List Str)
    (h : ∀ x ∈ report_to, dictContains INTEGRATION_TO_CALLBACK x = true) :
    report_to.mapM (fun integration =>
        match dictFind? INTEGRATION_TO_CALLBACK integration with
        | some c => Except.ok c
        | none => Except.error (str "KeyError")) =
      Except.ok (report_to.filterMap (fun i => dictFind? INTEGRATION_TO_CALLBACK i)) := by
  induction report_to with
  | nil => rfl
  | cons x xs ih =>
    obtain ⟨c, hc⟩ := dictContains_exists_find (h x (List.mem_cons_self x xs))
    have ih' := ih (fun y hy => h y (List.mem_cons_of_mem x hy))
    rw [List.mapM_cons, ih', List.filterMap_cons, hc]
    simp only [hc]
    rfl

theorem table_forall₂ (report_to : List Str)
    (h : ∀ x ∈ report_to, dictContains INTEGRATION_TO_CALLBACK x = true) :
    List.Forall₂ (fun n c => (n, c) ∈ INTEGRATION_TO_CALLBACK) report_to
      (report_to.filterMap (fun i => dictFind? INTEGRATION_TO_CALLBACK i)) := by
  induction report_to with
  | nil => simp
  | cons x xs ih =>
    obtain ⟨c, hc⟩ := dictContains_exists_find (h x (List.mem_cons_self x xs))
    rw [List.filterMap_cons, hc]
    exact List.Forall₂.cons (dictFind?_some_mem hc)
      (ih (fun y hy => h y (List.mem_cons_of_mem x hy)))

/-- **C2.** When every name in `report_to` is a key of
`INTEGRATION_TO_CALLBACK`, `get_reporting_integration_callbacks` returns
(no error) the list of the corresponding callback classes, one per input
name and in input order. -/
theorem get_reporting_integration_callbacks_valid (report_to : List Str)
    (h : ∀ x ∈ report_to, dictContains INTEGRATION_TO_CALLBACK x = true) :
    get_reporting_integration_callbacks report_to =
        Except.ok (report_to.filterMap (fun i => dictFind? INTEGRATION_TO_CALLBACK i)) ∧
      List.Forall₂ (fun n c => (n, c) ∈ INTEGRATION_TO_CALLBACK) report_to
        (report_to.filterMap (fun i => dictFind? INTEGRATION_TO_CALLBACK i)) := by
  have hfind : report_to.find? (fun i => !dictContains INTEGRATION_TO_CALLBACK i) = none := by
    rw [List.find?_eq_none]
    intro x hx
    simp [h x hx]
  constructor
  · unfold get_reporting_integration_callbacks
    rw [hfind]
    exact get_callbacks_mapM report_to h
  · exact table_forall₂ report_to h

/-- Witness for **C2**: `["wandb", "mlflow"]` yields
`[WandbCallback, MLflowCallback]`. -/
theorem get_reporting_integration_callbacks_valid_witness :
    (∀ x ∈ [str "wandb", str "mlflow"], dictContains INTEGRATION_TO_CALLBACK x = true) ∧
      get_reporting_integration_callbacks [str "wandb", str "mlflow"] =
        Except.ok [CallbackClass.WandbCallback, CallbackClass.MLflowCallback] := by
  refine ⟨by decide, ?_⟩
  rw [(get_reporting_integration_callbacks_valid [str "wandb", str "mlflow"] (by decide)).1]
  rfl

theorem infix_append_of_infix {l t : Str} (s : Str) (h : l <:+: t) : l <:+: s ++ t := by
  obtain ⟨u, v, huv⟩ := h
  refine ⟨s ++ u, v, ?_⟩
  rw [← huv]
  simp [List.append_assoc]

set_option maxRecDepth 4000 in
/-- **C3.** When `report_to` contains a name missing from
`INTEGRATION_TO_CALLBACK`, `get_reporting_integration_callbacks` raises a
`ValueError` (returns no list) whose message starts with the first
invalid entry and contains every valid integration name. -/
theorem get_reporting_integration_callbacks_invalid (report_to : List Str)
    (h : ∃ x ∈ report_to, dictContains INTEGRATION_TO_CALLBACK x = false) :
    ∃ bad, bad ∈ report_to ∧ dictContains INTEGRATION_TO_CALLBACK bad = false ∧
      get_reporting_integration_callbacks report_to = Except.error (unsupportedMsg bad) ∧
      bad <+: unsupportedMsg bad ∧
      ∀ kv ∈ INTEGRATION_TO_CALLBACK, kv.1 <:+: unsupportedMsg bad := by
  cases hfind : report_to.find? (fun i => !dictContains INTEGRATION_TO_CALLBACK i) with
  | none =>
    exfalso
    obtain ⟨x, hx, hfx⟩ := h
    have := List.find?_eq_none.mp hfind x hx
    simp [hfx] at this
  | some bad =>
    have hmem := List.mem_of_find?_eq_some hfind
    have hbad : dictContains INTEGRATION_TO_CALLBACK bad = false := by
      simpa using List.find?_some hfind
    refine ⟨bad, hmem, hbad, ?_, ⟨msgTail, rfl⟩, ?_⟩
    · unfold get_reporting_integration_callbacks
      rw [hfind]
    · intro kv hkv
      have htail : kv.1 <:+: msgTail := by fin_cases hkv <;> decide
      exact infix_append_of_infix bad htail

/-- Witness for **C3**: `["bogus"]` raises. -/
theorem get_reporting_integration_callbacks_invalid_witness :
    (∃ x ∈ [str "bogus"], dictContains INTEGRATION_TO_CALLBACK x = false) ∧
      (∃ bad, bad ∈ [str "bogus"] ∧ dictContains INTEGRATION_TO_CALLBACK bad = false ∧
        get_reporting_integration_callbacks [str "bogus"] = Except.error (unsupportedMsg bad) ∧
        bad <+: unsupportedMsg bad ∧
        ∀ kv ∈ INTEGRATION_TO_CALLBACK, kv.1 <:+: unsupportedMsg bad) :=
  ⟨by decide, get_reporting_integration_callbacks_invalid [str "bogus"] (by decide)⟩

/-! ## Callback `on_log` adapters

Each adapter's `on_log` is modelled as a pure function from the guard
flags, the step counter and the `logs` dict to the calls it makes on the
backing SDK (and, where the source emits `logger.warning` for dropped
entries, the list of dropped entries it warns about). -/

/-- Python scalar values as they occur in a `logs` dict: `int`, `float`
(modelled as rationals; no float arithmetic is performed on them), or a
non-numeric value such as a string. -/
inductive PyVal where
  | int (n : Int)
  | float (q : Rat)
  | vstr (s : Str)
deriving DecidableEq

/-- `isinstance(v, (int, float))` on a log value. -/
def isNumber : PyVal → Bool
  | .int _ => true
  | .float _ => true
  | .vstr _ => false

/-- `TensorBoardCallback.on_log`: nothing unless this is world process
zero and a `SummaryWriter` is available (after the lazy `_init_summary_writer`);
otherwise rewrite the log keys, `add_scalar` each numeric entry at the
global step, and warn about (and drop) each non-numeric entry. Returns
(`add_scalar` calls, warned-and-dropped entries). -/
def tensorboard_on_log (is_world_process_zero has_writer : Bool) (global_step : Int)
    (logs : List (Str × PyVal)) : List (Str × PyVal × Int) × List (Str × PyVal) :=
  if !is_world_process_zero then ([], [])
  else if !has_writer then ([], [])
  else
    (rewrite_logs logs).foldl
      (fun acc kv =>
        if isNumber kv.2 then (acc.1 ++ [(kv.1, kv.2, global_step)], acc.2)
        else (acc.1, acc.2 ++ [kv]))
      ([], [])

/-- `MLflowCallback.on_log`: on world process zero, `log_metric` each
numeric entry (raw keys, no rewrite) and warn about (and drop) each
non-numeric entry. Returns (`log_metric` calls, warned-and-dropped
entries). -/
def mlflow_on_log (is_world_process_zero : Bool) (global_step : Int)
    (logs : List (Str × PyVal)) : List (Str × PyVal × Int) × List (Str × PyVal) :=
  if !is_world_process_zero then ([], [])
  else
    logs.foldl
      (fun acc kv =>
        if isNumber kv.2 then (acc.1 ++ [(kv.1, kv.2, global_step)], acc.2)
        else (acc.1, acc.2 ++ [kv]))
      ([], [])

/-- `AzureMLCallback.on_log`: when an AzureML run is attached, log each
numeric entry; non-numeric entries are skipped with no warning (the
source has no `else` branch). Returns the `azureml_run.log` calls. -/
def azureml_on_log (has_azureml_run : Bool) (logs : List (Str × PyVal)) :
    List (Str × PyVal) :=
  if has_azureml_run then
    logs.foldl (fun acc kv => if isNumber kv.2 then acc ++ [kv] else acc) []
  else []

/-- `WandbCallback.on_log`: on world process zero, call
`wandb.log({**rewrite_logs(logs), "train/global_step": state.global_step})`
— the whole rewritten dict is forwarded with no numeric filtering.
Returns the dict passed to `wandb.log`. -/
def wandb_on_log (is_world_process_zero : Bool) (global_step : Int)
    (logs : List (Str × PyVal)) : List (Str × PyVal) :=
  if is_world_process_zero then
    dictInsert (rewrite_logs logs) (str "train/global_step") (.int global_step)
  else []

theorem partition_foldl (step : Int) (l : List (Str × PyVal))
    (acc : List (Str × PyVal × Int) × List (Str × PyVal)) :
    l.foldl
      (fun acc kv =>
        if isNumber kv.2 then (acc.1 ++ [(kv.1, kv.2, step)], acc.2)
        else (acc.1, acc.2 ++ [kv]))
      acc =
      (acc.1 ++ (l.filter (fun kv => isNumber kv.2)).map (fun kv => (kv.1, kv.2, step)),
       acc.2 ++ l.filter (fun kv => !isNumber kv.2)) := by
  induction l generalizing acc with
  | nil => simp
  | cons kv rest ih =>
    by_cases hn : isNumber kv.2 <;>
      simp [hn, ih, List.filter_cons, List.append_assoc]

theorem filter_foldl (l : List (Str × PyVal)) (acc : List (Str × PyVal)) :
    l.foldl (fun acc kv => if isNumber kv.2 then acc ++ [kv] else acc) acc =
      acc ++ l.filter (fun kv => isNumber kv.2) := by
  induction l generalizing acc with
  | nil => simp
  | cons kv rest ih =>
    by_cases hn : isNumber kv.2 <;>
      simp [hn, ih, List.filter_cons, List.append_assoc]

/-- **C4 is false as stated**: `WandbCallback.on_log` does not drop
non-numeric log values — it forwards the whole rewritten dict to
`wandb.log`. Concretely, with `logs = {"loss": 1, "note": "hi"}` on world
process zero at step 3, the dict passed to `wandb.log` contains the
non-numeric entry `"train/note" ↦ "hi"`. -/
theorem wandb_on_log_forwards_non_numeric :
    (str "train/note", PyVal.vstr (str "hi")) ∈
      wandb_on_log true 3 [(str "loss", PyVal.int 1), (str "note", PyVal.vstr (str "hi"))] := by
  decide

/-- **C4 (amended).** Per-adapter `on_log` behaviour on world process
zero: `TensorBoardCallback` and `MLflowCallback` forward exactly the
numeric entries (TensorBoard after key rewriting, MLflow on the raw keys)
and warn about (and drop) each non-numeric entry without raising;
`AzureMLCallback` forwards exactly the numeric entries but drops
non-numeric ones silently (no warning); `WandbCallback` forwards the
entire rewritten logs dict — non-numeric values included — plus the
`train/global_step` entry. -/
theorem on_log_filtering (global_step : Int) (logs : List (Str × PyVal)) :
    tensorboard_on_log true true global_step logs =
        (((rewrite_logs logs).filter (fun kv => isNumber kv.2)).map
            (fun kv => (kv.1, kv.2, global_step)),
         (rewrite_logs logs).filter (fun kv => !isNumber kv.2)) ∧
      mlflow_on_log true global_step logs =
        ((logs.filter (fun kv => isNumber kv.2)).map (fun kv => (kv.1, kv.2, global_step)),
         logs.filter (fun kv => !isNumber kv.2)) ∧
      azureml_on_log true logs = logs.filter (fun kv => isNumber kv.2) ∧
      wandb_on_log true global_step logs =
        dictInsert (rewrite_logs logs) (str "train/global_step") (PyVal.int global_step) := by
  refine ⟨?_, ?_, ?_, rfl⟩
  · unfold tensorboard_on_log
    simp only [Bool.not_true, Bool.false_eq_true, if_false]
    rw [partition_foldl]
    simp
  · unfold mlflow_on_log
    simp only [Bool.not_true, Bool.false_eq_true, if_false]
    rw [partition_foldl]
    simp
  · unfold azureml_on_log
    simp only [if_true]
    rw [filter_foldl]
    simp

/-! ## DeepSpeed configuration processing

The configuration phase of `deepspeed_init` (everything between
`deepspeed_parse_config` and the `deepspeed.initialize` call) is a
sequence of validations and in-place updates of the config dict. It is
modelled as a pure pipeline over JSON-like values; raising is
`Except.error`. External side effects (creating the HF optimizer or
scheduler) touch no config state and are not modelled. -/

/-- JSON-like values of a DeepSpeed config: numbers (ints and floats,
modelled as rationals), booleans, strings, lists, nested dicts. -/
inductive CVal where
  | num (q : Rat)
  | bool (b : Bool)
  | cstr (s : Str)
  | list (xs : List CVal)
  | dict (d : List (Str × CVal))

/-- A DeepSpeed config dict. -/
abbrev Config := List (Str × CVal)

/-- The trainer command-line arguments read by `deepspeed_init`
(fields in order: per_device_train_batch_size,
gradient_accumulation_steps, max_grad_norm, learning_rate, adam_beta1,
adam_beta2, adam_epsilon, weight_decay, warmup_steps, fp16_opt_level). -/
structure TrainingArguments where
  per_device_train_batch_size : Int
  gradient_accumulation_steps : Int
  max_grad_norm : Rat
  learning_rate : Rat
  adam_beta1 : Rat
  adam_beta2 : Rat
  adam_epsilon : Rat
  weight_decay : Rat
  warmup_steps : Int
  fp16_opt_level : Str

/-- `trainer.fp16_backend`: `None`, `"apex"` or `"amp"`. -/
inductive FP16Backend where
  | apex
  | amp

/-- `bs_keys = ["train_batch_size", "train_micro_batch_size_per_gpu"]`. -/
def bs_keys : List Str := [str "train_batch_size", str "train_micro_batch_size_per_gpu"]

/-- Message of the `ValueError` for preset batch-size keys (the
`{bs_keys}` interpolation is the Python list repr). -/
def bsMsg : Str :=
  str "Do not include [\x27train_batch_size\x27, \x27train_micro_batch_size_per_gpu\x27] entries in the ds config file, as they will be set via --per_device_train_batch_size or its default"

/-- Message of the `ValueError` for a preset `gradient_accumulation_steps`. -/
def gasMsg : Str :=
  str "Do not include gradient_accumulation_steps entries in the ds config file, as they will be set via --gradient_accumulation_steps or its default"

/-- Message of the `ValueError` for ZeRO offload without a DS optimizer. -/
def offloadMsg : Str := str "ZeRO Offload can only work with DeepSpeed optimizers"

/-- Message of the `ValueError` for HF scheduler + DS optimizer. -/
def hfSchedMsg : Str :=
  str "At the moment HF scheduler + DeepSpeed optimizer combination is not possible"

/-- The forbidden-key validation at the top of `deepspeed_init`:
`if len([x for x in bs_keys if x in config.keys()]): raise ...` and the
`gradient_accumulation_steps` check. -/
def checkBatchSizeKeys (config : Config) : Except Str Unit :=
  if (bs_keys.filter (fun x => dictContains config x)).length != 0 then
    .error bsMsg
  else if dictContains config (str "gradient_accumulation_steps") then
    .error gasMsg
  else
    .ok ()

/-- The batch-size merge step:
`config["train_micro_batch_size_per_gpu"] = args.per_device_train_batch_size`
and `config["gradient_accumulation_steps"] = args.gradient_accumulation_steps`. -/
def setBatchSizeKeys (args : TrainingArguments) (config : Config) : Config :=
  dictInsert
    (dictInsert config (str "train_micro_batch_size_per_gpu")
      (.num args.per_device_train_batch_size))
    (str "gradient_accumulation_steps") (.num args.gradient_accumulation_steps)

/-- `config["gradient_clipping"] = args.max_grad_norm`, only when the
config does not already set it. -/
def setGradClip (args : TrainingArguments) (config : Config) : Config :=
  if dictContains config (str "gradient_clipping") then config
  else dictInsert config (str "gradient_clipping") (.num args.max_grad_norm)

/-- The command-line optimizer parameter overrides
(`lr`, `betas`, `eps`, `weight_decay`). -/
def optimizerParams (args : TrainingArguments) : List (Str × CVal) :=
  [(str "lr", .num args.learning_rate),
   (str "betas", .list [.num args.adam_beta1, .num args.adam_beta2]),
   (str "eps", .num args.adam_epsilon),
   (str "weight_decay", .num args.weight_decay)]

/-- `for k, v in params.items(): if k in sub: sub[k] = v`. -/
def updateSubParams (params sub : List (Str × CVal)) : List (Str × CVal) :=
  params.foldl (fun sub kv => if dictContains sub kv.1 then dictInsert sub kv.1 kv.2 else sub) sub

/-- The optimizer section of `deepspeed_init`: override the preset DS
optimizer params from the command line, or (no `optimizer` section)
reject ZeRO offload and flag `zero_allow_untested_optimizer` while the
HF optimizer is created outside the config. -/
def configOptimizer (args : TrainingArguments) (config : Config) : Except Str Config :=
  if dictContains config (str "optimizer") then
    match dictFind? config (str "optimizer") with
    | some (.dict opt) =>
        match dictFind? opt (str "params") with
        | some (.dict params) =>
            .ok (dictInsert config (str "optimizer")
              (.dict (dictInsert opt (str "params")
                (.dict (updateSubParams (optimizerParams args) params)))))
        | _ => .error (str "KeyError: params")
    | _ => .error (str "TypeError: optimizer")
  else
    match dictFind? config (str "zero_optimization") with
    | some (.dict zero) =>
        (match dictFind? zero (str "cpu_offload") with
         | some (.bool true) => .error offloadMsg
         | _ => .ok (dictInsert config (str "zero_allow_untested_optimizer") (.bool true)))
    | _ => .ok (dictInsert config (str "zero_allow_untested_optimizer") (.bool true))

/-- The command-line scheduler parameter overrides
(`warmup_max_lr`, `warmup_num_steps`). -/
def schedulerParams (args : TrainingArguments) : List (Str × CVal) :=
  [(str "warmup_max_lr", .num args.learning_rate),
   (str "warmup_num_steps", .num args.warmup_steps)]

/-- The scheduler section of `deepspeed_init`: set `total_num_steps` for
`WarmupDecayLR`, apply command-line overrides, or (no `scheduler`
section) reject the HF-scheduler + DS-optimizer combination while the HF
scheduler is created outside the config. -/
def configScheduler (args : TrainingArguments) (num_training_steps : Int) (config : Config) :
    Except Str Config :=
  if dictContains config (str "scheduler") then
    match dictFind? config (str "scheduler") with
    | some (.dict sched) =>
        match dictFind? sched (str "type"), dictFind? sched (str "params") with
        | some ty, some (.dict params) =>
            let isWDL : Bool := match ty with
              | .cstr s => s == str "WarmupDecayLR"
              | _ => false
            let params :=
              if isWDL then dictInsert params (str "total_num_steps") (.num num_training_steps)
              else params
            .ok (dictInsert config (str "scheduler")
              (.dict (dictInsert sched (str "params")
                (.dict (updateSubParams (schedulerParams args) params)))))
        | _, _ => .error (str "KeyError: scheduler")
    | _ => .error (str "TypeError: scheduler")
  else
    if dictContains config (str "optimizer") then .error hfSchedMsg
    else .ok config

/-- The fp16 section of `deepspeed_init`: populate `amp` (apex backend)
or `fp16` (native amp backend) when the config does not preset them. -/
def configFP16 (args : TrainingArguments) (fp16_backend : Option FP16Backend)
    (config : Config) : Config :=
  match fp16_backend with
  | none => config
  | some .apex =>
      if dictContains config (str "amp") then config
      else
        dictInsert config (str "amp")
          (.dict [(str "enabled", .bool true), (str "opt_level", .cstr args.fp16_opt_level)])
  | some .amp =>
      if dictContains config (str "fp16") then config
      else dictInsert config (str "fp16") (.dict [(str "enabled", .bool true)])

/-- The `zero_optimization` section of `deepspeed_init`: record whether
stage 3 is enabled (`deepspeed_zero3_enable(zero.get("stage") == 3)`,
returned as `some flag`) and fill in the bucket sizes that are preset to
`0` from the model's hidden size. -/
def configZero (hidden_size : Rat) (config : Config) : Config × Option Bool :=
  if dictContains config (str "zero_optimization") then
    match dictFind? config (str "zero_optimization") with
    | some (.dict zero) =>
        let stage3 : Bool := match dictFind? zero (str "stage") with
          | some (.num q) => q == 3
          | _ => false
        let zero := match dictFind? zero (str "reduce_bucket_size") with
          | some (.num 0) =>
              dictInsert zero (str "reduce_bucket_size") (.num (hidden_size * hidden_size))
          | _ => zero
        let zero := match dictFind? zero (str "stage3_prefetch_bucket_size") with
          | some (.num 0) =>
              dictInsert zero (str "stage3_prefetch_bucket_size")
                (.num ((9 / 10) * hidden_size * hidden_size))
          | _ => zero
        let zero := match dictFind? zero (str "stage3_param_persistence_threshold") with
          | some (.num 0) =>
              dictInsert zero (str "stage3_param_persistence_threshold")
                (.num (10 * hidden_size))
          | _ => zero
        (dictInsert config (str "zero_optimization") (.dict zero), some stage3)
    | _ => (config, none)
  else (config, none)

/-- The whole configuration-processing phase of `deepspeed_init`, in
source order, ending where `deepspeed.initialize(config_params=config)`
would be called: any `Except.error` is raised before initialization. The
second component is the ZeRO-3 flag assignment (if any). -/
def deepspeed_init_config (args : TrainingArguments) (fp16_backend : Option FP16Backend)
    (hidden_size : Rat) (num_training_steps : Int) (config0 : Config) :
    Except Str (Config × Option Bool) := do
  let _ ← checkBatchSizeKeys config0
  let config := setBatchSizeKeys args config0
  let config := setGradClip args config
  let config ← configOptimizer args config
  let config ← configScheduler args num_training_steps config
  let config := configFP16 args fp16_backend config
  return configZero hidden_size config

theorem dictContains_eq_false_find?_eq_none {β : Type u} {d : List (Str × β)} {k : Str}
    (h : dictContains d k = false) : d.find? (fun kv => kv.1 == k) = none := by
  rw [List.find?_eq_none]
  intro kv hkv
  intro hk
  have : d.any (fun kv => kv.1 == k) = true := List.any_eq_true.mpr ⟨kv, hkv, hk⟩
  rw [dictContains] at h
  rw [h] at this
  exact Bool.false_ne_true this

theorem dictFind?_insert_self {β : Type u} (d : List (Str × β)) (k : Str) (v : β) :
    dictFind? (dictInsert d k v) k = some v := by
  by_cases hc : dictContains d k
  · obtain ⟨kv0, hkv0⟩ :=
      Option.isSome_iff_exists.mp (List.find?_isSome.mpr (List.any_eq_true.mp hc))
    have hfun :
        (fun kv : Str × β => kv.1 == k) ∘ (fun kv : Str × β => if kv.1 == k then (k, v) else kv) =
          fun kv : Str × β => kv.1 == k := by
      funext kv
      by_cases hk : kv.1 = k <;> simp [hk]
    unfold dictFind? dictInsert
    rw [if_pos hc, List.find?_map, hfun, hkv0]
    have hk0 : kv0.1 = k := by simpa using List.find?_some hkv0
    simp [hk0]
  · unfold dictFind? dictInsert
    rw [if_neg (by simp [hc]), List.find?_append,
      dictContains_eq_false_find?_eq_none (Bool.eq_false_iff.mpr hc)]
    simp

theorem dictFind?_insert_ne {β : Type u} (d : List (Str × β)) (k k' : Str) (v : β)
    (hne : k' ≠ k) : dictFind? (dictInsert d k v) k' = dictFind? d k' := by
  by_cases hc : dictContains d k
  · have hfun :
        (fun kv : Str × β => kv.1 == k') ∘ (fun kv : Str × β => if kv.1 == k then (k, v) else kv) =
          fun kv : Str × β => kv.1 == k' := by
      funext kv
      by_cases hk : kv.1 = k
      · simp [hk, Ne.symm hne]
      · simp [hk]
    unfold dictFind? dictInsert
    rw [if_pos hc, List.find?_map, hfun]
    cases hf : d.find? (fun kv => kv.1 == k') with
    | none => rfl
    | some kv' =>
      have hk' : kv'.1 = k' := by simpa using List.find?_some hf
      simp [hk', hne]
  · unfold dictFind? dictInsert
    rw [if_neg (by simp [hc]), List.find?_append]
    cases hf : d.find? (fun kv => kv.1 == k') with
    | none => simp [beq_eq_false_iff_ne.mpr (Ne.symm hne)]
    | some kv' => rfl

theorem deepspeed_init_config_check_error {args : TrainingArguments}
    {fp16_backend : Option FP16Backend} {hidden_size : Rat} {num_training_steps : Int}
    {config : Config} {m : Str} (hchk : checkBatchSizeKeys config = .error m) :
    deepspeed_init_config args fp16_backend hidden_size num_training_steps config =
      .error m := by
  unfold deepspeed_init_config
  rw [hchk]
  rfl

/-- **C5.** Any config presetting `train_batch_size`,
`train_micro_batch_size_per_gpu` or `gradient_accumulation_steps` makes
the `deepspeed_init` configuration phase raise one of the two descriptive
`ValueError`s; the error comes from the validation step, before any merge
or initialization work. -/
theorem deepspeed_init_config_forbidden (args : TrainingArguments)
    (fp16_backend : Option FP16Backend) (hidden_size : Rat) (num_training_steps : Int)
    (config : Config)
    (h : dictContains config (str "train_batch_size") = true ∨
         dictContains config (str "train_micro_batch_size_per_gpu") = true ∨
         dictContains config (str "gradient_accumulation_steps") = true) :
    deepspeed_init_config args fp16_backend hidden_size num_training_steps config =
        .error bsMsg ∨
      deepspeed_init_config args fp16_backend hidden_size num_training_steps config =
        .error gasMsg := by
  by_cases h1 : dictContains config (str "train_batch_size")
  · left
    exact deepspeed_init_config_check_error
      (by simp [checkBatchSizeKeys, bs_keys, h1, bne_iff_ne])
  · by_cases h2 : dictContains config (str "train_micro_batch_size_per_gpu")
    · left
      exact deepspeed_init_config_check_error
        (by simp [checkBatchSizeKeys, bs_keys, Bool.eq_false_iff.mpr h1, h2, bne_iff_ne])
    · right
      have h3 : dictContains config (str "gradient_accumulation_steps") = true := by
        rcases h with h | h | h
        · exact absurd h h1
        · exact absurd h h2
        · exact h
      exact deepspeed_init_config_check_error
        (by simp [checkBatchSizeKeys, bs_keys, Bool.eq_false_iff.mpr h1,
          Bool.eq_false_iff.mpr h2, h3])

/-- Witness for **C5**: a config presetting `train_batch_size` raises. -/
theorem deepspeed_init_config_forbidden_witness :
    (dictContains [(str "train_batch_size", CVal.num 16)] (str "train_batch_size") = true ∨
        dictContains [(str "train_batch_size", CVal.num 16)]
          (str "train_micro_batch_size_per_gpu") = true ∨
        dictContains [(str "train_batch_size", CVal.num 16)]
          (str "gradient_accumulation_steps") = true) ∧
      (deepspeed_init_config ⟨8, 2, 1, 1/20000, 9/10, 999/1000, 1/100000000, 0, 0, str "O1"⟩
          none 1024 100 [(str "train_batch_size", CVal.num 16)] = .error bsMsg ∨
        deepspeed_init_config ⟨8, 2, 1, 1/20000, 9/10, 999/1000, 1/100000000, 0, 0, str "O1"⟩
          none 1024 100 [(str "train_batch_size", CVal.num 16)] = .error gasMsg) :=
  ⟨by decide,
   deepspeed_init_config_forbidden ⟨8, 2, 1, 1/20000, 9/10, 999/1000, 1/100000000, 0, 0, str "O1"⟩
     none 1024 100 [(str "train_batch_size", CVal.num 16)] (by decide)⟩

/-- **C6.** On a config free of the three forbidden keys, the validation
passes and after the batch-size merge step of `deepspeed_init` the config
maps `train_micro_batch_size_per_gpu` to the trainer's per-device train
batch size and `gradient_accumulation_steps` to its gradient-accumulation
setting. -/
theorem deepspeed_merge_batch_keys (args : TrainingArguments) (config : Config)
    (h : dictContains config (str "train_batch_size") = false ∧
         dictContains config (str "train_micro_batch_size_per_gpu") = false ∧
         dictContains config (str "gradient_accumulation_steps") = false) :
    checkBatchSizeKeys config = .ok () ∧
      dictFind? (setBatchSizeKeys args config) (str "train_micro_batch_size_per_gpu") =
        some (.num args.per_device_train_batch_size) ∧
      dictFind? (setBatchSizeKeys args config) (str "gradient_accumulation_steps") =
        some (.num args.gradient_accumulation_steps) := by
  obtain ⟨h1, h2, h3⟩ := h
  refine ⟨?_, ?_, ?_⟩
  · simp [checkBatchSizeKeys, bs_keys, h1, h2, h3]
  · unfold setBatchSizeKeys
    rw [dictFind?_insert_ne _ _ _ _ (by decide), dictFind?_insert_self]
  · unfold setBatchSizeKeys
    rw [dictFind?_insert_self]

/-- Witness for **C6**: `{}` with batch size 8 and accumulation 2 yields
`train_micro_batch_size_per_gpu = 8` and `gradient_accumulation_steps = 2`. -/
theorem deepspeed_merge_batch_keys_witness :
    (dictContains ([] : Config) (str "train_batch_size") = false ∧
        dictContains ([] : Config) (str "train_micro_batch_size_per_gpu") = false ∧
        dictContains ([] : Config) (str "gradient_accumulation_steps") = false) ∧
      (checkBatchSizeKeys [] = .ok () ∧
        dictFind? (setBatchSizeKeys ⟨8, 2, 1, 1/20000, 9/10, 999/1000, 1/100000000, 0, 0, str "O1"⟩ [])
            (str "train_micro_batch_size_per_gpu") = some (.num 8) ∧
        dictFind? (setBatchSizeKeys ⟨8, 2, 1, 1/20000, 9/10, 999/1000, 1/100000000, 0, 0, str "O1"⟩ [])
            (str "gradient_accumulation_steps") = some (.num 2)) :=
  ⟨by decide,
   deepspeed_merge_batch_keys ⟨8, 2, 1, 1/20000, 9/10, 999/1000, 1/100000000, 0, 0, str "O1"⟩
     [] (by decide)⟩

/-! ## Ray Tune hyperparameter search: pre-launch validation -/

/-- `IntervalStrategy` from `trainer_utils` (collaborator of this slice;
only the constructors matter here): `no`, `steps`, `epoch`. -/
inductive IntervalStrategy where
  | NO
  | STEPS
  | EPOCH
deriving DecidableEq

/-- The Ray Tune scheduler classes `run_hp_search_ray` distinguishes;
`other` stands for any scheduler outside the isinstance tuple (e.g.
`FIFOScheduler`). -/
inductive RayScheduler where
  | ASHAScheduler
  | HyperBandForBOHB
  | MedianStoppingRule
  | PopulationBasedTraining
  | other
deriving DecidableEq

/-- The isinstance tuple
`(ASHAScheduler, MedianStoppingRule, HyperBandForBOHB, PopulationBasedTraining)`
of schedulers requiring intermediate reporting. -/
def requiresReporting : RayScheduler → Bool
  | .ASHAScheduler => true
  | .HyperBandForBOHB => true
  | .MedianStoppingRule => true
  | .PopulationBasedTraining => true
  | .other => false

/-- `type(kwargs["scheduler"]).__name__` for the message format. -/
def schedulerName : RayScheduler → Str
  | .ASHAScheduler => str "ASHAScheduler"
  | .HyperBandForBOHB => str "HyperBandForBOHB"
  | .MedianStoppingRule => str "MedianStoppingRule"
  | .PopulationBasedTraining => str "PopulationBasedTraining"
  | .other => str "FIFOScheduler"

/-- The `RuntimeError` message of the evaluation check in
`run_hp_search_ray` (with `{cls}` formatted in). -/
def raySchedulerMsg (s : RayScheduler) : Str :=
  str "You are using " ++ schedulerName s ++
  str " as a scheduler but you haven\x27t enabled evaluation during training. " ++
  str "This means your trials will not report intermediate results to Ray Tune, and " ++
  str "can thus not be stopped early or used to exploit other trials parameters. " ++
  str "If this is what you want, do not use " ++ schedulerName s ++
  str ". If you would like to use " ++ schedulerName s ++
  str ", make sure you pass `do_eval=True` and `evaluation_strategy=\x27steps\x27` in the " ++
  str "Trainer `args`."

/-- The trainer state `run_hp_search_ray` reads and writes before
launching trials (fields in order: args.n_gpu, args._n_gpu, args.do_eval,
args.evaluation_strategy, use_tune_checkpoints). -/
structure RayTrainer where
  n_gpu : Int
  _n_gpu : Int
  do_eval : Bool
  evaluation_strategy : IntervalStrategy
  use_tune_checkpoints : Bool

/-- The `kwargs` entries `run_hp_search_ray` inspects (fields in order:
resources_per_trial, progress_reporter present, keep_checkpoints_num,
scheduler). -/
structure RayKwargs where
  resources_per_trial : Option (List (Str × Int))
  progress_reporter : Bool
  keep_checkpoints_num : Option Int
  scheduler : Option RayScheduler

/-- The `KeyError` raised by the `keep_checkpoints_num > 1` warning: its
f-string indexes `kwargs[\x27keep_checkpoint_num\x27]` (sic, missing the
`s`), a key that is never present. -/
def keepCheckpointNumMsg : Str := str "KeyError: \x27keep_checkpoint_num\x27"

/-- The pre-launch phase of `run_hp_search_ray`, up to (and excluding)
`ray.tune.run`: default `resources_per_trial`, per-trial GPU allocation,
default `progress_reporter`, the `keep_checkpoints_num` handling — whose
`> 1` warning raises the `KeyError` above while formatting its message —
and then the scheduler checks. An `Except.error` is an exception raised
before any trial is launched. -/
def run_hp_search_ray_setup (trainer : RayTrainer) (kwargs : RayKwargs) :
    Except Str (RayTrainer × RayKwargs) :=
  let resources : List (Str × Int) :=
    match kwargs.resources_per_trial with
    | none => if trainer.n_gpu > 0 then [(str "cpu", 1), (str "gpu", 1)] else [(str "cpu", 1)]
    | some r => r
  let gpus_per_trial : Int := (dictFind? resources (str "gpu")).getD 0
  let use_tune_checkpoints : Bool :=
    match kwargs.keep_checkpoints_num with
    | some n => if n > 0 then true else trainer.use_tune_checkpoints
    | none => trainer.use_tune_checkpoints
  let trainer' : RayTrainer :=
    ⟨trainer.n_gpu, gpus_per_trial, trainer.do_eval, trainer.evaluation_strategy,
      use_tune_checkpoints⟩
  let kwargs' : RayKwargs :=
    ⟨some resources, true, kwargs.keep_checkpoints_num, kwargs.scheduler⟩
  let schedulerCheck : Except Str (RayTrainer × RayKwargs) :=
    match kwargs.scheduler with
    | some s =>
        if requiresReporting s &&
            (!trainer'.do_eval || decide (trainer'.evaluation_strategy = IntervalStrategy.NO)) then
          .error (raySchedulerMsg s)
        else .ok (trainer', kwargs')
    | none => .ok (trainer', kwargs')
  match kwargs.keep_checkpoints_num with
  | some n =>
      if n > 0 then
        if n > 1 then .error keepCheckpointNumMsg else schedulerCheck
      else schedulerCheck
  | none => schedulerCheck

/-- **C7 is false as stated**: with an `ASHAScheduler`, evaluation
disabled, and `keep_checkpoints_num = 2` in the kwargs, the
`keep_checkpoints_num > 1` warning's f-string indexes the missing key
`keep_checkpoint_num` and raises `KeyError` before the scheduler check is
reached — the function does not raise the claimed `RuntimeError`. -/
theorem run_hp_search_ray_keyerror_preempts :
    run_hp_search_ray_setup ⟨0, 0, false, IntervalStrategy.NO, false⟩
        ⟨none, false, some 2, some RayScheduler.ASHAScheduler⟩ =
      .error keepCheckpointNumMsg ∧
      run_hp_search_ray_setup ⟨0, 0, false, IntervalStrategy.NO, false⟩
          ⟨none, false, some 2, some RayScheduler.ASHAScheduler⟩ ≠
        .error (raySchedulerMsg RayScheduler.ASHAScheduler) := by
  refine ⟨rfl, fun h => ?_⟩
  have h1 : (Except.error keepCheckpointNumMsg : Except Str (RayTrainer × RayKwargs)) =
      .error (raySchedulerMsg RayScheduler.ASHAScheduler) :=
    Eq.trans (Eq.symm rfl) h
  injection h1 with hmsg
  exact absurd hmsg (by decide)

/-- **C7 (amended).** When the kwargs carry a scheduler requiring
intermediate reporting (ASHA, MedianStopping, HyperBandForBOHB,
PopulationBasedTraining) and the trainer has `do_eval` false or
`evaluation_strategy == NO`, `run_hp_search_ray` raises before launching
any trial (`ray.tune.run` lies beyond the modelled phase and is never
reached on error): the `RuntimeError` of the evaluation check — unless
the kwargs also set `keep_checkpoints_num` above 1, in which case the
`KeyError` from the `kwargs[\x27keep_checkpoint_num\x27]` typo in the
checkpoint warning is raised first. -/
theorem run_hp_search_ray_requires_eval (trainer : RayTrainer) (kwargs : RayKwargs)
    (s : RayScheduler) (hs : kwargs.scheduler = some s) (hreq : requiresReporting s = true)
    (heval : trainer.do_eval = false ∨ trainer.evaluation_strategy = IntervalStrategy.NO) :
    ((∀ n, kwargs.keep_checkpoints_num = some n → n ≤ 1) →
        run_hp_search_ray_setup trainer kwargs = .error (raySchedulerMsg s)) ∧
      (∀ n, kwargs.keep_checkpoints_num = some n → 1 < n →
        run_hp_search_ray_setup trainer kwargs = .error keepCheckpointNumMsg) := by
  constructor
  · intro hle
    cases hk : kwargs.keep_checkpoints_num with
    | none =>
      unfold run_hp_search_ray_setup
      rw [hs, hk]
      rcases heval with h | h <;> simp [h, hreq]
    | some n =>
      have hng : ¬n > 1 := by
        have := hle n hk
        omega
      unfold run_hp_search_ray_setup
      rw [hs, hk]
      rcases heval with h | h <;> simp [h, hreq, hng]
  · intro n hk hlt
    have h0 : n > 0 := by omega
    unfold run_hp_search_ray_setup
    rw [hs, hk]
    simp [h0, hlt]

/-- Witness for **C7 (amended)**: an `ASHAScheduler` with evaluation
disabled and no `keep_checkpoints_num` raises the `RuntimeError`. -/
theorem run_hp_search_ray_requires_eval_witness :
    ((⟨none, false, none, some RayScheduler.ASHAScheduler⟩ : RayKwargs).scheduler =
        some RayScheduler.ASHAScheduler ∧
      requiresReporting RayScheduler.ASHAScheduler = true ∧
      ((⟨0, 0, false, IntervalStrategy.NO, false⟩ : RayTrainer).do_eval = false ∨
        (⟨0, 0, false, IntervalStrategy.NO, false⟩ : RayTrainer).evaluation_strategy =
          IntervalStrategy.NO)) ∧
      run_hp_search_ray_setup ⟨0, 0, false, IntervalStrategy.NO, false⟩
          ⟨none, false, none, some RayScheduler.ASHAScheduler⟩ =
        .error (raySchedulerMsg RayScheduler.ASHAScheduler) :=
  ⟨⟨rfl, rfl, Or.inl rfl⟩,
   (run_hp_search_ray_requires_eval ⟨0, 0, false, IntervalStrategy.NO, false⟩
     ⟨none, false, none, some RayScheduler.ASHAScheduler⟩ RayScheduler.ASHAScheduler
     rfl rfl (Or.inl rfl)).1 (fun _ hn => Option.noConfusion hn)⟩

/-! ## DeepSpeed checkpoint resume -/

/-- Outcome of the `resume_from_checkpoint` block at the end of
`deepspeed_init`. -/
inductive ResumeAction where
  | loaded (load_path : Str)
  | skipped
  | notRequested
deriving DecidableEq

/-- The `resume_from_checkpoint` block of `deepspeed_init`. The results
of `glob(f"{resume_from_checkpoint}/global_step*")` (the sorted
checkpoint dirs) and of `model.load_checkpoint` (its returned
`load_path`) are external inputs. When the glob finds no `global_step*`
dirs the source logs `"... doesn't have deepspeed checkpoints, doing
nothing"` and continues. -/
def deepspeed_resume (resume_from_checkpoint : Option Str)
    (checkpoint_dirs : List Str) (load_path : Option Str) : Except Str ResumeAction :=
  match resume_from_checkpoint with
  | none => .ok .notRequested
  | some p =>
      if checkpoint_dirs.length > 0 then
        match load_path with
        | none => .error (str "[deepspeed] failed to resume from checkpoint " ++ p)
        | some lp => .ok (.loaded lp)
      else
        .ok .skipped

/-- **C8 is false as stated**: a resume path that does not contain the
expected DeepSpeed checkpoint state (no `global_step*` dirs) does not
make `deepspeed_init` raise — the function logs an info message and
continues, returning normally. -/
theorem deepspeed_resume_no_checkpoint_no_error :
    deepspeed_resume (some (str "output/model_path")) [] none = .ok .skipped ∧
      ∀ m, deepspeed_resume (some (str "output/model_path")) [] none ≠ .error m :=
  ⟨rfl, fun m h => by simp [deepspeed_resume] at h⟩

/-- **C8 (amended).** `deepspeed_init` raises the hard error
`"[deepspeed] failed to resume from checkpoint ..."` only when the resume
path does contain `global_step*` checkpoint dirs but
`model.load_checkpoint` returns no load path; when the path contains no
`global_step*` dirs it logs and continues without error, and a successful
load returns the loaded path. -/
theorem deepspeed_resume_spec (p : Str) (checkpoint_dirs : List Str)
    (load_path : Option Str) :
    (checkpoint_dirs ≠ [] → load_path = none →
        deepspeed_resume (some p) checkpoint_dirs load_path =
          .error (str "[deepspeed] failed to resume from checkpoint " ++ p)) ∧
      (checkpoint_dirs = [] →
        deepspeed_resume (some p) checkpoint_dirs load_path = .ok .skipped) ∧
      (∀ lp, checkpoint_dirs ≠ [] → load_path = some lp →
        deepspeed_resume (some p) checkpoint_dirs load_path = .ok (.loaded lp)) := by
  refine ⟨?_, ?_, ?_⟩
  · intro hne hl
    cases checkpoint_dirs with
    | nil => exact absurd rfl hne
    | cons d ds => simp [deepspeed_resume, hl]
  · intro he
    subst he
    rfl
  · intro lp hne hl
    cases checkpoint_dirs with
    | nil => exact absurd rfl hne
    | cons d ds => simp [deepspeed_resume, hl]

/-- Witness for **C8 (amended)**: checkpoint dirs present but loading
fails. -/
theorem deepspeed_resume_spec_witness :
    deepspeed_resume (some (str "ckpt")) [str "ckpt/global_step10"] none =
      .error (str "[deepspeed] failed to resume from checkpoint " ++ str "ckpt") :=
  (deepspeed_resume_spec (str "ckpt") [str "ckpt/global_step10"] none).1
    (by decide) rfl

/-! ## Process-wide ZeRO-3 flag -/

/-- The module global `_is_deepspeed_zero3_enabled` (`None` before the
first computation). -/
abbrev ZState := Option Bool

/-- What the auto-detector reads from the process environment: whether
`--deepspeed` occurs in `sys.argv`, and the parsed config file that
follows it (`none` when the path does not exist, which makes the source
raise `ValueError`). -/
structure ArgvEnv where
  has_deepspeed_arg : Bool
  ds_config : Option Config

/-- The stage-3 test of the auto-detector:
`"zero_optimization" in config and "stage" in config["zero_optimization"]
and config["zero_optimization"]["stage"] == 3`. -/
def detectStage3 (config : Config) : Bool :=
  match dictFind? config (str "zero_optimization") with
  | some (.dict zero) =>
      (match dictFind? zero (str "stage") with
       | some (.num q) => q == 3
       | _ => false)
  | _ => false

/-- `is_deepspeed_zero3_enabled()` as a transition on the global flag:
returns the cached value when set; otherwise sets the global to `False`,
then runs the `sys.argv` auto-detector (raising when `--deepspeed` points
to a missing file, the global staying `False`). -/
def is_deepspeed_zero3_enabled (env : ArgvEnv) (s : ZState) : Except Str Bool × ZState :=
  match s with
  | some b => (.ok b, some b)
  | none =>
      if env.has_deepspeed_arg then
        match env.ds_config with
        | none => (.error (str "--deepspeed requires a valid path to a config file"), some false)
        | some config => (.ok (detectStage3 config), some (detectStage3 config))
      else (.ok false, some false)

/-- `deepspeed_zero3_enable(enable)`: overwrite the global flag. -/
def deepspeed_zero3_enable (enable : Bool) (_s : ZState) : ZState := some enable

/-- **C9.** The flag lifecycle: once the global is set to `b`, every
call returns `b` and leaves the state unchanged whatever the command
line says (so the flag is computed at most once); a first call that
returns `b` caches exactly `b`; and after `deepspeed_zero3_enable e`
every call returns `e`. -/
theorem zero3_flag_lifecycle :
    (∀ (env : ArgvEnv) (b : Bool),
        is_deepspeed_zero3_enabled env (some b) = (Except.ok b, some b)) ∧
      (∀ (env : ArgvEnv) (b : Bool) (s' : ZState),
        is_deepspeed_zero3_enabled env none = (Except.ok b, s') → s' = some b) ∧
      (∀ (env : ArgvEnv) (s : ZState) (e : Bool),
        is_deepspeed_zero3_enabled env (deepspeed_zero3_enable e s) = (Except.ok e, some e)) := by
  refine ⟨fun env b => rfl, ?_, fun env s e => rfl⟩
  intro env b s' h
  simp only [is_deepspeed_zero3_enabled] at h
  by_cases hd : env.has_deepspeed_arg = true
  · rw [if_pos hd] at h
    cases hc : env.ds_config with
    | none =>
        rw [hc] at h
        have h1 := congrArg Prod.fst h
        simp at h1
    | some config =>
        rw [hc] at h
        have h1 : Except.ok (detectStage3 config) = Except.ok b := congrArg Prod.fst h
        have h2 : (some (detectStage3 config) : ZState) = s' := congrArg Prod.snd h
        have hb : detectStage3 config = b := by injection h1
        rw [← h2, hb]
  · rw [if_neg hd] at h
    have h1 : Except.ok false = Except.ok b := congrArg Prod.fst h
    have h2 : (some false : ZState) = s' := congrArg Prod.snd h
    have hb : false = b := by injection h1
    rw [← h2, ← hb]

/-- Witness for **C9**: a stage-3 command line caches `true` on first
call. -/
theorem zero3_flag_lifecycle_witness :
    is_deepspeed_zero3_enabled
        ⟨true, some [(str "zero_optimization", CVal.dict [(str "stage", CVal.num 3)])]⟩ none =
      (Except.ok true, some true) ∧
      (some true : ZState) = some true :=
  ⟨rfl,
   zero3_flag_lifecycle.2.1
     ⟨true, some [(str "zero_optimization", CVal.dict [(str "stage", CVal.num 3)])]⟩
     true (some true) rfl⟩

/-! ## `deepspeed_parse_config`: deep-copy discipline

`deepspeed_parse_config` on an in-memory dict returns
`deepcopy(ds_config)` (source comment: "Don't modify user's data should
they want to reuse it ... since some config params must be not set by
users"). To make mutation and aliasing expressible, Python objects are
modelled with an explicit heap: dict objects live at references, and a
dict field holds either a scalar or a reference to another dict object.
`deepcopy` is the standard-library deep copy, allocating a fresh
reference for every reachable dict. -/

/-- A heap reference (Python object identity). -/
abbrev Ref := Nat

/-- A field value of a dict object: a scalar, or a reference to a
nested dict object. -/
inductive HVal where
  | num (q : Rat)
  | bool (b : Bool)
  | hstr (s : Str)
  | ref (r : Ref)
deriving DecidableEq

/-- A dict object: insertion-ordered fields. -/
abbrev Obj := List (Str × HVal)

/-- The heap: allocated references with their dict objects. -/
abbrev Heap := List (Ref × Obj)

/-- Fetch the object identified by `r`. -/
def heapLookup (h : Heap) (r : Ref) : Option Obj :=
  (h.find? (fun ro => ro.1 == r)).map Prod.snd

/-- `obj[k] = v` on the object identified by `r` (a no-op on an
unallocated reference). -/
def heapSet (h : Heap) (r : Ref) (k : Str) (v : HVal) : Heap :=
  h.map (fun ro => if ro.1 == r then (ro.1, dictInsert ro.2 k v) else ro)

/-- A sequence of dict mutations `(ref, key, value)`, applied in order:
the in-place config updates `deepspeed_init` performs after parsing. -/
def applyUpdates (us : List (Ref × Str × HVal)) (h : Heap) : Heap :=
  us.foldl (fun h u => heapSet h u.1 u.2.1 u.2.2) h

/-- The key test of the forbidden-key validation, read through the heap:
`key in config.keys()` for the dict object at `r`. -/
def heapContainsKey (h : Heap) (r : Ref) (k : Str) : Bool :=
  match heapLookup h r with
  | some obj => dictContains obj k
  | none => false

/-- Copy an object's fields in order, threading heap and allocator
cursor through the given one-value copier. -/
def copyFields (copy : Heap → Ref → HVal → Option (Heap × Ref × HVal)) :
    Heap → Ref → Obj → Option (Heap × Ref × Obj)
  | h, next, [] => some (h, next, [])
  | h, next, kv :: rest =>
      match copy h next kv.2 with
      | none => none
      | some (h₁, next₁, v₁) =>
          match copyFields copy h₁ next₁ rest with
          | none => none
          | some (h₂, next₂, rest₂) => some (h₂, next₂, (kv.1, v₁) :: rest₂)

/-- `copy.deepcopy` on a field value: scalars are returned unchanged, a
reference is replaced by a reference to a fresh copy of the object it
points to. `fuel` bounds recursion depth (any acyclic object is copied
exactly when given enough fuel); `next` is the allocator cursor. -/
def deepcopyVal : Nat → Heap → Ref → HVal → Option (Heap × Ref × HVal)
  | _, h, next, .num q => some (h, next, .num q)
  | _, h, next, .bool b => some (h, next, .bool b)
  | _, h, next, .hstr s => some (h, next, .hstr s)
  | 0, _, _, .ref _ => none
  | fuel + 1, h, next, .ref r =>
      match heapLookup h r with
      | none => none
      | some obj =>
          match copyFields (deepcopyVal fuel) h next obj with
          | none => none
          | some (h₂, next₂, obj₂) => some (h₂ ++ [(next₂, obj₂)], next₂ + 1, .ref next₂)

/-- `deepspeed_parse_config(ds_config)` on an in-memory dict (the
`isinstance(ds_config, dict)` branch of the source): return
`deepcopy(ds_config)`. The string (file path) branch and the type-error
branch do not involve the caller's dict. -/
def deepspeed_parse_config (fuel : Nat) (h : Heap) (next : Ref) (ds_config : Ref) :
    Option (Heap × Ref × HVal) :=
  deepcopyVal fuel h next (.ref ds_config)

/-- Read an object's fields in order through the given one-value reader. -/
def readFields (read : HVal → Option CVal) : Obj → Option (List (Str × CVal))
  | [] => some []
  | kv :: rest =>
      match read kv.2 with
      | none => none
      | some t =>
          match readFields read rest with
          | none => none
          | some ts => some ((kv.1, t) :: ts)

/-- Read back a field value as a pure tree (with `fuel` bounding the
depth), dereferencing nested dict objects. -/
def readVal : Nat → Heap → HVal → Option CVal
  | _, _, .num q => some (.num q)
  | _, _, .bool b => some (.bool b)
  | _, _, .hstr s => some (.cstr s)
  | 0, _, .ref _ => none
  | fuel + 1, h, .ref r =>
      match heapLookup h r with
      | none => none
      | some obj =>
          match readFields (readVal fuel h) obj with
          | none => none
          | some d => some (.dict d)

/-- All references occurring in a field value lie below `n`. -/
def valRefsLt : HVal → Ref → Bool
  | .ref r, n => r < n
  | _, _ => true

/-- All references occurring in an object's fields lie below `n`. -/
def objRefsLt (obj : Obj) (n : Ref) : Bool :=
  obj.all (fun kv => valRefsLt kv.2 n)

/-- All references occurring in any object of the heap lie below `n`. -/
def heapRefsLt (h : Heap) (n : Ref) : Bool :=
  h.all (fun ro => objRefsLt ro.2 n)

/-- All allocated references lie below `n`. -/
def heapDomLt (h : Heap) (n : Ref) : Bool :=
  h.all (fun ro => ro.1 < n)

/-- The allocator invariant: every allocated reference and every
reference stored in a field is below the cursor `n`. -/
def wfHeap (h : Heap) (n : Ref) : Bool :=
  heapDomLt h n && heapRefsLt h n

theorem heapLookup_append_left {h : Heap} {r : Ref} {o : Obj} (hf : heapLookup h r = some o)
    (g : Heap) : heapLookup (h ++ g) r = some o := by
  unfold heapLookup at hf ⊢
  rw [List.find?_append]
  cases hfind : h.find? (fun ro => ro.1 == r) with
  | none => rw [hfind] at hf; simp at hf
  | some ro => rw [hfind] at hf; simp [hf]

theorem heapLookup_append_single_ne (g : Heap) {ρ m : Ref} (o : Obj) (hne : ρ ≠ m) :
    heapLookup (g ++ [(m, o)]) ρ = heapLookup g ρ := by
  unfold heapLookup
  rw [List.find?_append]
  cases hfind : g.find? (fun ro => ro.1 == ρ) with
  | none =>
      rw [List.find?_cons_of_neg _ (by simp [Ne.symm hne])]
      rfl
  | some ro => rfl

theorem heapLookup_append_single_self (g : Heap) {m : Ref} (o : Obj)
    (hnone : heapLookup g m = none) : heapLookup (g ++ [(m, o)]) m = some o := by
  unfold heapLookup at hnone ⊢
  rw [List.find?_append]
  cases hfind : g.find? (fun ro => ro.1 == m) with
  | none => simp
  | some ro => rw [hfind] at hnone; simp at hnone

theorem heapLookup_eq_none_of_ge {h : Heap} {n r : Ref} (hdom : heapDomLt h n = true)
    (hge : n ≤ r) : heapLookup h r = none := by
  have hnone : h.find? (fun ro => ro.1 == r) = none := by
    rw [List.find?_eq_none]
    intro ro hro hbeq
    have h1 : ro.1 < n := of_decide_eq_true (List.all_eq_true.mp hdom ro hro)
    have h2 : ro.1 = r := by simpa using hbeq
    exact absurd (h2 ▸ h1) (not_lt.mpr hge)
  unfold heapLookup
  rw [hnone]
  rfl

theorem find?_key_cons_of_pos {γ : Type u} (a : Ref × γ) (l : List (Ref × γ)) {ρ : Ref}
    (ha : (a.1 == ρ) = true) :
    List.find? (fun ro => ro.1 == ρ) (a :: l) = some a :=
  List.find?_cons_of_pos l ha

theorem find?_key_cons_of_neg {γ : Type u} (a : Ref × γ) (l : List (Ref × γ)) {ρ : Ref}
    (ha : ¬(a.1 == ρ) = true) :
    List.find? (fun ro => ro.1 == ρ) (a :: l) = List.find? (fun ro => ro.1 == ρ) l :=
  List.find?_cons_of_neg l ha

theorem heapLookup_heapSet_ne (h : Heap) {r ρ : Ref} (k : Str) (v : HVal) (hne : ρ ≠ r) :
    heapLookup (heapSet h r k v) ρ = heapLookup h ρ := by
  induction h with
  | nil => rfl
  | cons ro rest ih =>
    unfold heapSet at ih ⊢
    rw [List.map_cons]
    by_cases hρ : ro.1 = ρ
    · have hror : ¬ro.1 = r := by rw [hρ]; exact hne
      have hhead : (if (ro.1 == r) = true then (ro.1, dictInsert ro.2 k v) else ro) = ro := by
        rw [if_neg]
        simp [hror]
      rw [hhead]
      unfold heapLookup
      rw [find?_key_cons_of_pos ro _ (by simpa using hρ),
        find?_key_cons_of_pos ro _ (by simpa using hρ)]
    · have hfst : (if (ro.1 == r) = true then (ro.1, dictInsert ro.2 k v) else ro).1 = ro.1 := by
        by_cases hr : (ro.1 == r) = true <;> simp [hr]
      have hhead1 : ¬((if (ro.1 == r) = true then (ro.1, dictInsert ro.2 k v) else ro).1 == ρ)
          = true := by
        rw [hfst]
        simp [hρ]
      unfold heapLookup
      rw [find?_key_cons_of_neg _ _ hhead1, find?_key_cons_of_neg ro _ (by simpa using hρ)]
      exact ih

theorem applyUpdates_frame {us : List (Ref × Str × HVal)} {n : Ref}
    (hus : ∀ u ∈ us, n ≤ u.1) {h : Heap} {ρ : Ref} (hρ : ρ < n) :
    heapLookup (applyUpdates us h) ρ = heapLookup h ρ := by
  induction us generalizing h with
  | nil => rfl
  | cons u rest ih =>
    unfold applyUpdates at ih ⊢
    rw [List.foldl_cons]
    rw [ih (fun u hu => hus u (List.mem_cons_of_mem _ hu))]
    exact heapLookup_heapSet_ne h _ _
      (Nat.ne_of_lt (lt_of_lt_of_le hρ (hus u (List.mem_cons_self u rest))))

theorem valRefsLt_mono {v : HVal} {n m : Ref} (hv : valRefsLt v n = true) (hnm : n ≤ m) :
    valRefsLt v m = true := by
  cases v with
  | ref r =>
      have h1 : r < n := by
        unfold valRefsLt at hv
        exact of_decide_eq_true hv
      unfold valRefsLt
      exact decide_eq_true (lt_of_lt_of_le h1 hnm)
  | num q => rfl
  | bool b => rfl
  | hstr s => rfl

theorem objRefsLt_mono {o : Obj} {n m : Ref} (ho : objRefsLt o n = true) (hnm : n ≤ m) :
    objRefsLt o m = true := by
  rw [objRefsLt, List.all_eq_true] at ho ⊢
  exact fun kv hkv => valRefsLt_mono (ho kv hkv) hnm

theorem heapRefsLt_mono {h : Heap} {n m : Ref} (hh : heapRefsLt h n = true) (hnm : n ≤ m) :
    heapRefsLt h m = true := by
  rw [heapRefsLt, List.all_eq_true] at hh ⊢
  exact fun ro hro => objRefsLt_mono (hh ro hro) hnm

theorem heapDomLt_mono {h : Heap} {n m : Ref} (hh : heapDomLt h n = true) (hnm : n ≤ m) :
    heapDomLt h m = true := by
  rw [heapDomLt, List.all_eq_true] at hh ⊢
  intro ro hro
  have h1 : ro.1 < n := of_decide_eq_true (hh ro hro)
  exact decide_eq_true (lt_of_lt_of_le h1 hnm)

theorem heapRefsLt_lookup {h : Heap} {n r : Ref} {o : Obj} (hh : heapRefsLt h n = true)
    (hf : heapLookup h r = some o) : objRefsLt o n = true := by
  unfold heapLookup at hf
  cases hfind : h.find? (fun ro => ro.1 == r) with
  | none => rw [hfind] at hf; simp at hf
  | some ro =>
      rw [hfind] at hf
      have hmem := List.mem_of_find?_eq_some hfind
      have ho : ro.2 = o := by simpa using hf
      rw [← ho]
      exact List.all_eq_true.mp hh ro hmem

theorem objRefsLt_cons {kv : Str × HVal} {rest : Obj} {n : Ref} :
    objRefsLt (kv :: rest) n = (valRefsLt kv.2 n && objRefsLt rest n) := by
  simp [objRefsLt, List.all_cons]

theorem wfHeap_dom {h : Heap} {n : Ref} (hw : wfHeap h n = true) : heapDomLt h n = true := by
  rw [wfHeap, Bool.and_eq_true] at hw
  exact hw.1

theorem wfHeap_refs {h : Heap} {n : Ref} (hw : wfHeap h n = true) : heapRefsLt h n = true := by
  rw [wfHeap, Bool.and_eq_true] at hw
  exact hw.2

theorem wfHeap_mk {h : Heap} {n : Ref} (hd : heapDomLt h n = true)
    (hr : heapRefsLt h n = true) : wfHeap h n = true := by
  rw [wfHeap, Bool.and_eq_true]
  exact ⟨hd, hr⟩

theorem heapDomLt_append {a b : Heap} {n : Ref} :
    heapDomLt (a ++ b) n = (heapDomLt a n && heapDomLt b n) := by
  simp [heapDomLt, List.all_append]

theorem heapRefsLt_append {a b : Heap} {n : Ref} :
    heapRefsLt (a ++ b) n = (heapRefsLt a n && heapRefsLt b n) := by
  simp [heapRefsLt, List.all_append]

theorem readFields_congr {read₁ read₂ : HVal → Option CVal} (obj : Obj)
    (hr : ∀ kv ∈ obj, read₂ kv.2 = read₁ kv.2) :
    readFields read₂ obj = readFields read₁ obj := by
  induction obj with
  | nil => rfl
  | cons kv rest ih =>
    have hval := hr kv (List.mem_cons_self kv rest)
    have hrest := ih (fun kv' hkv' => hr kv' (List.mem_cons_of_mem kv hkv'))
    cases hval' : read₁ kv.2 with
    | none => simp only [readFields]; rw [hval, hval']
    | some t =>
      simp only [readFields]
      rw [hval, hval']
      simp [hrest]

/-- Reads below the cursor `n` are unchanged between two heaps that agree
on every reference below `n` (all references in play staying below `n`). -/
theorem read_frame : ∀ (fuel : Nat) (h₁ h₂ : Heap) (n : Ref),
    (∀ ρ, ρ < n → heapLookup h₂ ρ = heapLookup h₁ ρ) → heapRefsLt h₁ n = true →
    ∀ v, valRefsLt v n = true → readVal fuel h₂ v = readVal fuel h₁ v := by
  intro fuel
  induction fuel with
  | zero =>
    intro h₁ h₂ n hpres hrefs v hv
    cases v <;> rfl
  | succ fuel ih =>
    intro h₁ h₂ n hpres hrefs v hv
    cases v with
    | num q => rfl
    | bool b => rfl
    | hstr s => rfl
    | ref r =>
      have hr : r < n := by
        unfold valRefsLt at hv
        exact of_decide_eq_true hv
      have hlook : heapLookup h₂ r = heapLookup h₁ r := hpres r hr
      simp only [readVal]
      rw [hlook]
      cases hlkup : heapLookup h₁ r with
      | none => rfl
      | some obj =>
        have hor : objRefsLt obj n = true := heapRefsLt_lookup hrefs hlkup
        have hro : readFields (readVal fuel h₂) obj = readFields (readVal fuel h₁) obj := by
          refine readFields_congr obj (fun kv hkv => ?_)
          have hvkv : valRefsLt kv.2 n = true := by
            rw [objRefsLt, List.all_eq_true] at hor
            exact hor kv hkv
          exact ih h₁ h₂ n hpres hrefs kv.2 hvkv
        simp [hro]

/-- Reads of a whole object's fields, under the same agreement. -/
theorem read_frame_fields (fuel : Nat) (h₁ h₂ : Heap) (n : Ref)
    (hpres : ∀ ρ, ρ < n → heapLookup h₂ ρ = heapLookup h₁ ρ)
    (hrefs : heapRefsLt h₁ n = true) (obj : Obj) (hobj : objRefsLt obj n = true) :
    readFields (readVal fuel h₂) obj = readFields (readVal fuel h₁) obj := by
  refine readFields_congr obj (fun kv hkv => ?_)
  have hvkv : valRefsLt kv.2 n = true := by
    rw [objRefsLt, List.all_eq_true] at hobj
    exact hobj kv hkv
  exact read_frame fuel h₁ h₂ n hpres hrefs kv.2 hvkv

/-- Specification of one deepcopy step at a given fuel: the heap is only
extended (lookups below the cursor are unchanged), the cursor only
advances, the allocator invariant is preserved, the copied value points
only below the new cursor, and the copy reads back exactly as the
original. -/
def CopyValSpec (fuel : Nat) : Prop :=
  ∀ (h : Heap) (next : Ref) (v : HVal) (h' : Heap) (next' : Ref) (v' : HVal),
    wfHeap h next = true → valRefsLt v next = true →
    deepcopyVal fuel h next v = some (h', next', v') →
    (∀ ρ, ρ < next → heapLookup h' ρ = heapLookup h ρ) ∧
      next ≤ next' ∧ wfHeap h' next' = true ∧ valRefsLt v' next' = true ∧
      readVal fuel h' v' = readVal fuel h v

theorem copyFields_spec (fuel : Nat) (hPv : CopyValSpec fuel) :
    ∀ (obj : Obj) (h : Heap) (next : Ref) (h' : Heap) (next' : Ref) (obj' : Obj),
      wfHeap h next = true → objRefsLt obj next = true →
      copyFields (deepcopyVal fuel) h next obj = some (h', next', obj') →
      (∀ ρ, ρ < next → heapLookup h' ρ = heapLookup h ρ) ∧
        next ≤ next' ∧ wfHeap h' next' = true ∧ objRefsLt obj' next' = true ∧
        readFields (readVal fuel h') obj' = readFields (readVal fuel h) obj := by
  intro obj
  induction obj with
  | nil =>
    intro h next h' next' obj' hwf hrefs hcp
    simp only [copyFields, Option.some.injEq, Prod.mk.injEq] at hcp
    obtain ⟨he1, he2, he3⟩ := hcp
    subst he1
    subst he2
    subst he3
    exact ⟨fun ρ _ => rfl, le_refl next, hwf, rfl, rfl⟩
  | cons kv rest ih =>
    intro h next h' next' obj' hwf hrefs hcp
    rw [objRefsLt_cons, Bool.and_eq_true] at hrefs
    simp only [copyFields] at hcp
    split at hcp
    · simp at hcp
    · rename_i h₁ next₁ v₁ hcv
      split at hcp
      · simp at hcp
      · rename_i h₂ next₂ rest₂ hcr
        simp only [Option.some.injEq, Prod.mk.injEq] at hcp
        obtain ⟨hh2, hn2, hobj2⟩ := hcp
        subst hh2
        subst hn2
        subst hobj2
        obtain ⟨pres₁, hle₁, hwf₁, hval₁, hread₁⟩ :=
          hPv h next kv.2 h₁ next₁ v₁ hwf hrefs.1 hcv
        obtain ⟨pres₂, hle₂, hwf₂, hrefs₂, hread₂⟩ :=
          ih h₁ next₁ h₂ next₂ rest₂ hwf₁ (objRefsLt_mono hrefs.2 hle₁) hcr
        refine ⟨?_, le_trans hle₁ hle₂, hwf₂, ?_, ?_⟩
        · intro ρ hρ
          rw [pres₂ ρ (lt_of_lt_of_le hρ hle₁), pres₁ ρ hρ]
        · rw [objRefsLt_cons, Bool.and_eq_true]
          exact ⟨valRefsLt_mono hval₁ hle₂, hrefs₂⟩
        · have hA : readVal fuel h₂ v₁ = readVal fuel h kv.2 := by
            rw [read_frame fuel h₁ h₂ next₁ pres₂ (wfHeap_refs hwf₁) v₁ hval₁, hread₁]
          have hB : readFields (readVal fuel h₂) rest₂ = readFields (readVal fuel h) rest := by
            rw [hread₂,
              read_frame_fields fuel h h₁ next pres₁ (wfHeap_refs hwf) rest hrefs.2]
          simp only [readFields]
          rw [hA]
          cases hx : readVal fuel h kv.2 <;> simp [hB]

theorem copyValSpec_zero : CopyValSpec 0 := by
  intro h next v h' next' v' hwf hv hcp
  cases v with
  | num q =>
    simp only [deepcopyVal, Option.some.injEq, Prod.mk.injEq] at hcp
    obtain ⟨he1, he2, he3⟩ := hcp
    subst he1
    subst he2
    subst he3
    exact ⟨fun ρ _ => rfl, le_refl next, hwf, rfl, rfl⟩
  | bool b =>
    simp only [deepcopyVal, Option.some.injEq, Prod.mk.injEq] at hcp
    obtain ⟨he1, he2, he3⟩ := hcp
    subst he1
    subst he2
    subst he3
    exact ⟨fun ρ _ => rfl, le_refl next, hwf, rfl, rfl⟩
  | hstr s =>
    simp only [deepcopyVal, Option.some.injEq, Prod.mk.injEq] at hcp
    obtain ⟨he1, he2, he3⟩ := hcp
    subst he1
    subst he2
    subst he3
    exact ⟨fun ρ _ => rfl, le_refl next, hwf, rfl, rfl⟩
  | ref r => simp [deepcopyVal] at hcp

theorem copyValSpec_succ (fuel : Nat) (ih : CopyValSpec fuel) : CopyValSpec (fuel + 1) := by
  intro h next v h' next' v' hwf hv hcp
  cases v with
  | num q =>
    simp only [deepcopyVal, Option.some.injEq, Prod.mk.injEq] at hcp
    obtain ⟨he1, he2, he3⟩ := hcp
    subst he1
    subst he2
    subst he3
    exact ⟨fun ρ _ => rfl, le_refl next, hwf, rfl, rfl⟩
  | bool b =>
    simp only [deepcopyVal, Option.some.injEq, Prod.mk.injEq] at hcp
    obtain ⟨he1, he2, he3⟩ := hcp
    subst he1
    subst he2
    subst he3
    exact ⟨fun ρ _ => rfl, le_refl next, hwf, rfl, rfl⟩
  | hstr s =>
    simp only [deepcopyVal, Option.some.injEq, Prod.mk.injEq] at hcp
    obtain ⟨he1, he2, he3⟩ := hcp
    subst he1
    subst he2
    subst he3
    exact ⟨fun ρ _ => rfl, le_refl next, hwf, rfl, rfl⟩
  | ref r =>
    simp only [deepcopyVal] at hcp
    split at hcp
    · simp at hcp
    · rename_i obj hlk
      split at hcp
      · simp at hcp
      · rename_i h₂ next₂ obj₂ hco
        simp only [Option.some.injEq, Prod.mk.injEq] at hcp
        obtain ⟨hh', hn', hv'⟩ := hcp
        subst hh'
        subst hn'
        subst hv'
        have hobjn : objRefsLt obj next = true := heapRefsLt_lookup (wfHeap_refs hwf) hlk
        obtain ⟨pres₂, hle₂, hwf₂, hrefs₂, hread₂⟩ :=
          copyFields_spec fuel ih obj h next h₂ next₂ obj₂ hwf hobjn hco
        have hd₂ : heapDomLt h₂ next₂ = true := wfHeap_dom hwf₂
        have hlk2none : heapLookup h₂ next₂ = none :=
          heapLookup_eq_none_of_ge hd₂ (le_refl next₂)
        refine ⟨?_, le_trans hle₂ (Nat.le_succ next₂), ?_, ?_, ?_⟩
        · intro ρ hρ
          rw [heapLookup_append_single_ne h₂ obj₂ (Nat.ne_of_lt (lt_of_lt_of_le hρ hle₂)),
            pres₂ ρ hρ]
        · refine wfHeap_mk ?_ ?_
          · rw [heapDomLt_append, Bool.and_eq_true]
            refine ⟨heapDomLt_mono hd₂ (Nat.le_succ next₂), ?_⟩
            simp [heapDomLt]
          · rw [heapRefsLt_append, Bool.and_eq_true]
            refine ⟨heapRefsLt_mono (wfHeap_refs hwf₂) (Nat.le_succ next₂), ?_⟩
            have := objRefsLt_mono hrefs₂ (Nat.le_succ next₂)
            simp [heapRefsLt, this]
        · unfold valRefsLt
          exact decide_eq_true (Nat.lt_succ_self next₂)
        · have hsingle : heapLookup (h₂ ++ [(next₂, obj₂)]) next₂ = some obj₂ :=
            heapLookup_append_single_self h₂ obj₂ hlk2none
          have hframe : ∀ ρ, ρ < next₂ →
              heapLookup (h₂ ++ [(next₂, obj₂)]) ρ = heapLookup h₂ ρ :=
            fun ρ hρ => heapLookup_append_single_ne h₂ obj₂ (Nat.ne_of_lt hρ)
          have hro : readFields (readVal fuel (h₂ ++ [(next₂, obj₂)])) obj₂ =
              readFields (readVal fuel h) obj := by
            rw [read_frame_fields fuel h₂ (h₂ ++ [(next₂, obj₂)]) next₂ hframe
              (wfHeap_refs hwf₂) obj₂ hrefs₂, hread₂]
          simp only [readVal]
          rw [hsingle, hlk]
          simp [hro]

theorem deepcopy_spec : ∀ fuel : Nat, CopyValSpec fuel := by
  intro fuel
  induction fuel with
  | zero => exact copyValSpec_zero
  | succ n ih => exact copyValSpec_succ n ih

/-- **C10.** `deepspeed_parse_config` on a dict returns a deep copy: the
copy reads back identical to the caller's dict; neither the parse nor any
subsequent sequence of in-place mutations of objects at references the
copy allocated (which is all `deepspeed_init` mutates) changes any object
of the caller's heap; in particular the caller's dict keeps exactly its
keys, so passing it again gives the same forbidden-key-check verdicts. -/
theorem deepspeed_parse_config_deep_copies (fuel : Nat) (h : Heap) (next r : Ref)
    (h' : Heap) (next' : Ref) (v' : HVal) (us : List (Ref × Str × HVal))
    (hwf : wfHeap h next = true) (hr : r < next)
    (hcp : deepspeed_parse_config fuel h next r = some (h', next', v'))
    (hus : ∀ u ∈ us, next ≤ u.1) :
    readVal fuel h' v' = readVal fuel h (.ref r) ∧
      (∀ ρ, ρ < next → heapLookup (applyUpdates us h') ρ = heapLookup h ρ) ∧
      (∀ k, heapContainsKey (applyUpdates us h') r k = heapContainsKey h r k) := by
  have hv : valRefsLt (.ref r) next = true := by
    unfold valRefsLt
    exact decide_eq_true hr
  have hcp' : deepcopyVal fuel h next (.ref r) = some (h', next', v') := hcp
  obtain ⟨pres, hle, hwf', hval', hread⟩ :=
    deepcopy_spec fuel h next (.ref r) h' next' v' hwf hv hcp'
  have hpres2 : ∀ ρ, ρ < next → heapLookup (applyUpdates us h') ρ = heapLookup h ρ := by
    intro ρ hρ
    rw [applyUpdates_frame hus hρ, pres ρ hρ]
  refine ⟨hread, hpres2, ?_⟩
  intro k
  unfold heapContainsKey
  rw [hpres2 r hr]

/-- Witness for **C10**: copy a one-field dict, then set the forbidden
key `train_batch_size` on the copy; the original object is untouched and
its forbidden-key test is unchanged. -/
theorem deepspeed_parse_config_deep_copies_witness :
    (wfHeap [(0, [(str "a", HVal.num 1)])] 1 = true ∧ 0 < 1 ∧
      deepspeed_parse_config 1 [(0, [(str "a", HVal.num 1)])] 1 0 =
        some ([(0, [(str "a", HVal.num 1)]), (1, [(str "a", HVal.num 1)])], 2, HVal.ref 1) ∧
      (∀ u ∈ [((1 : Ref), str "train_batch_size", HVal.num 16)], 1 ≤ u.1)) ∧
      heapLookup
          (applyUpdates [((1 : Ref), str "train_batch_size", HVal.num 16)]
            [(0, [(str "a", HVal.num 1)]), (1, [(str "a", HVal.num 1)])]) 0 =
        heapLookup [(0, [(str "a", HVal.num 1)])] 0 ∧
      heapContainsKey
          (applyUpdates [((1 : Ref), str "train_batch_size", HVal.num 16)]
            [(0, [(str "a", HVal.num 1)]), (1, [(str "a", HVal.num 1)])]) 0
          (str "train_batch_size") =
        heapContainsKey [(0, [(str "a", HVal.num 1)])] 0 (str "train_batch_size") :=
  ⟨⟨by decide, by decide, rfl, by decide⟩,
   (deepspeed_parse_config_deep_copies 1 [(0, [(str "a", HVal.num 1)])] 1 0
       [(0, [(str "a", HVal.num 1)]), (1, [(str "a", HVal.num 1)])] 2 (HVal.ref 1)
       [((1 : Ref), str "train_batch_size", HVal.num 16)]
       (by decide) (by decide) rfl (by decide)).2.1 0 (by decide),
   (deepspeed_parse_config_deep_copies 1 [(0, [(str "a", HVal.num 1)])] 1 0
       [(0, [(str "a", HVal.num 1)]), (1, [(str "a", HVal.num 1)])] 2 (HVal.ref 1)
       [((1 : Ref), str "train_batch_size", HVal.num 16)]
       (by decide) (by decide) rfl (by decide)).2.2 (str "train_batch_size")⟩

end Integrations
